import Mathlib

/-!
Shallow embedding of `examples/vrnn.ipynb`: a Variational Recurrent Neural
Network trained on MNIST rows-as-sequences.  Tensors are embedded as
`Fin n → ℝ` vectors (batches as `Fin b → Vec n`), the four neural modules
(`Phi_x`, `Phi_z`, `Generator`, `Prior`, `Inference`, `Recurrence`) as
records of their layer parameters together with pure forward functions,
and the training/generation drivers (`data_loop`, `plot_image_from_latent`,
the epoch loop) as explicit folds.  Stochastic sampling is embedded by
passing the random draws (reparameterisation noise, Bernoulli thresholds)
as explicit oracle arguments.  Framework pieces of pixyz that the notebook
calls but whose code is not part of the notebook (ARLoss, distribution
sampling, sample_mean, NLL and KL) are modelled from the spec, as flagged
in their doc comments.
-/

namespace VRNN

/-- Notebook cell 4: `x_dim = 28`. -/
def x_dim : ℕ := 28

/-- Notebook cell 4: `h_dim = 100`. -/
def h_dim : ℕ := 100

/-- Notebook cell 4: `z_dim = 64`. -/
def z_dim : ℕ := 64

/-- Notebook cell 2 (`init_dataset`): `fixed_t_size = 28`, the value returned
as the third component and bound to `t_max` at first. -/
def fixed_t_size : ℕ := 28

/-- Notebook cell 4: `t_max = x_dim` (re-binding the earlier `t_max`). -/
def t_max : ℕ := x_dim

/-- A real vector of width `n`, embedding a 1-d tensor. -/
abbrev Vec (n : ℕ) := Fin n → ℝ

/-- A batch of `b` vectors of width `n`, embedding a 2-d tensor `(b, n)`. -/
abbrev BVec (b n : ℕ) := Fin b → Vec n

/-- Embedding of `F.relu`. -/
noncomputable def relu (x : ℝ) : ℝ := max x 0

/-- Embedding of `torch.sigmoid`. -/
noncomputable def sigmoid (x : ℝ) : ℝ := 1 / (1 + Real.exp (-x))

/-- Embedding of `F.softplus` (with the default `beta = 1` and no threshold overflow,
since the embedding computes in exact reals). -/
noncomputable def softplus (x : ℝ) : ℝ := Real.log (1 + Real.exp x)

/-- Embedding of `torch.cat((u, v), dim=-1)` on vectors. -/
def concatV {m n : ℕ} (u : Vec m) (v : Vec n) : Vec (m + n) :=
  fun i =>
    if h : (i : ℕ) < m then u ⟨i, h⟩
    else v ⟨(i : ℕ) - m, by have hi := i.isLt; omega⟩

/-- Parameters of `nn.Linear(inD, outD)`. -/
structure LinearP (inD outD : ℕ) where
  weight : Fin outD → Fin inD → ℝ
  bias : Fin outD → ℝ

/-- Forward pass of `nn.Linear`: `y = x Aᵀ + b`. -/
noncomputable def LinearP.forward {inD outD : ℕ} (L : LinearP inD outD)
    (x : Vec inD) : Vec outD :=
  fun i => (∑ j, L.weight i j * x j) + L.bias i

/-- Parameters of the `Phi_x` module: a single `nn.Linear(x_dim, h_dim)`. -/
structure Phi_x where
  fc0 : LinearP x_dim h_dim

/-- Forward pass `Phi_x.forward`: `F.relu(self.fc0(x))`. -/
noncomputable def Phi_x.forward (p : Phi_x) (x : Vec x_dim) : Vec h_dim :=
  fun i => relu (p.fc0.forward x i)

/-- Parameters of the `Phi_z` module: a single `nn.Linear(z_dim, h_dim)`. -/
structure Phi_z where
  fc0 : LinearP z_dim h_dim

/-- Forward pass `Phi_z.forward`: `F.relu(self.fc0(z))`. -/
noncomputable def Phi_z.forward (p : Phi_z) (z : Vec z_dim) : Vec h_dim :=
  fun i => relu (p.fc0.forward z i)

/-- Parameters of `nn.GRUCell(inD, hid)`, split by gate: the reset gate
(`w_ir`, `w_hr`), update gate (`w_iz`, `w_hz`) and candidate (`w_ic`,
`w_hc`) weight matrices and their biases. -/
structure GRUCellP (inD hid : ℕ) where
  w_ir : Fin hid → Fin inD → ℝ
  w_iz : Fin hid → Fin inD → ℝ
  w_ic : Fin hid → Fin inD → ℝ
  w_hr : Fin hid → Fin hid → ℝ
  w_hz : Fin hid → Fin hid → ℝ
  w_hc : Fin hid → Fin hid → ℝ
  b_ir : Vec hid
  b_iz : Vec hid
  b_ic : Vec hid
  b_hr : Vec hid
  b_hz : Vec hid
  b_hc : Vec hid

/-- Forward pass of `nn.GRUCell`: the standard gated-recurrent-cell update
r = σ(W_ir x + b_ir + W_hr h + b_hr), z = σ(W_iz x + b_iz + W_hz h + b_hz),
c = tanh(W_ic x + b_ic + r ⊙ (W_hc h + b_hc)), h' = (1 - z) ⊙ c + z ⊙ h. -/
noncomputable def GRUCellP.forward {inD hid : ℕ} (g : GRUCellP inD hid)
    (x : Vec inD) (h : Vec hid) : Vec hid :=
  fun i =>
    let r := sigmoid ((∑ j, g.w_ir i j * x j) + g.b_ir i
      + (∑ j, g.w_hr i j * h j) + g.b_hr i)
    let zg := sigmoid ((∑ j, g.w_iz i j * x j) + g.b_iz i
      + (∑ j, g.w_hz i j * h j) + g.b_hz i)
    let c := Real.tanh ((∑ j, g.w_ic i j * x j) + g.b_ic i
      + r * ((∑ j, g.w_hc i j * h j) + g.b_hc i))
    (1 - zg) * c + zg * h i

/-- Loc/scale parameters of a diagonal `Normal` distribution of width `n`,
as returned by the `forward` of `Prior` and `Inference`. -/
structure NormalParams (n : ℕ) where
  loc : Vec n
  scale : Vec n

/-- Parameters of the `Generator` module (`Bernoulli`, cond_var z, h_prev,
var x): its three linear layers and the stored reference `self.f_phi_z`
(assigned the global `f_phi_z` object in `__init__`). -/
structure Generator where
  fc1 : LinearP (h_dim + h_dim) h_dim
  fc2 : LinearP h_dim h_dim
  fc3 : LinearP h_dim x_dim
  f_phi_z : Phi_z

/-- Forward pass `Generator.forward`: cat(phi_z(z), h_prev) through two relu layers,
then `probs = torch.sigmoid(self.fc3(h))`. -/
noncomputable def Generator.forward (G : Generator) (z : Vec z_dim)
    (h_prev : Vec h_dim) : Vec x_dim :=
  let h0 := concatV (G.f_phi_z.forward z) h_prev
  let h1 := fun i => relu (G.fc1.forward h0 i)
  let h2 := fun i => relu (G.fc2.forward h1 i)
  fun i => sigmoid (G.fc3.forward h2 i)

/-- Parameters of the `Prior` module (`Normal`, cond_var h_prev, var z). -/
structure Prior where
  fc1 : LinearP h_dim h_dim
  fc21 : LinearP h_dim z_dim
  fc22 : LinearP h_dim z_dim

/-- Forward pass `Prior.forward`: `h = F.relu(self.fc1(h_prev))`, loc `self.fc21(h)`,
scale `F.softplus(self.fc22(h))`. -/
noncomputable def Prior.forward (P : Prior) (h_prev : Vec h_dim) :
    NormalParams z_dim :=
  let h := fun i => relu (P.fc1.forward h_prev i)
  { loc := P.fc21.forward h
    scale := fun i => softplus (P.fc22.forward h i) }

/-- Parameters of the `Inference` module (`Normal`, cond_var x and h_prev,
var z), with the stored reference `self.f_phi_x` (the global `f_phi_x`). -/
structure Inference where
  fc1 : LinearP (h_dim + h_dim) h_dim
  fc21 : LinearP h_dim z_dim
  fc22 : LinearP h_dim z_dim
  f_phi_x : Phi_x

/-- Forward pass `Inference.forward`: `h = F.relu(self.fc1(cat(phi_x(x), h_prev)))`,
loc `self.fc21(h)`, scale `F.softplus(self.fc22(h))`. -/
noncomputable def Inference.forward (E : Inference) (x : Vec x_dim)
    (h_prev : Vec h_dim) : NormalParams z_dim :=
  let h0 := concatV (E.f_phi_x.forward x) h_prev
  let h := fun i => relu (E.fc1.forward h0 i)
  { loc := E.fc21.forward h
    scale := fun i => softplus (E.fc22.forward h i) }

/-- Parameters of the `Recurrence` module (`Deterministic`, cond_var x, z,
h_prev, var h): the `nn.GRUCell(h_dim * 2, h_dim)` and the stored
references `self.f_phi_x`, `self.f_phi_z` (the shared globals). -/
structure Recurrence where
  rnncell : GRUCellP (h_dim * 2) h_dim
  f_phi_x : Phi_x
  f_phi_z : Phi_z

/-- The attribute `self.hidden_size = self.rnncell.hidden_size`: the hidden width of the
`nn.GRUCell(h_dim * 2, h_dim)`, namely `h_dim`. -/
def Recurrence.hidden_size (_R : Recurrence) : ℕ := h_dim

/-- Forward pass `Recurrence.forward`:
`h_next = self.rnncell(torch.cat((phi_z(z), phi_x(x)), dim=-1), h_prev)`. -/
noncomputable def Recurrence.forward (R : Recurrence) (x : Vec x_dim)
    (z : Vec z_dim) (h_prev : Vec h_dim) : Vec h_dim :=
  R.rnncell.forward (concatV (R.f_phi_z.forward z) (R.f_phi_x.forward x)) h_prev

/-- The raw (non-shared) layer parameters that the notebook's module
constructors create freshly: everything except the `f_phi_x` / `f_phi_z`
references, which are shared globals. -/
structure RawLayers where
  gen_fc1 : LinearP (h_dim + h_dim) h_dim
  gen_fc2 : LinearP h_dim h_dim
  gen_fc3 : LinearP h_dim x_dim
  pri_fc1 : LinearP h_dim h_dim
  pri_fc21 : LinearP h_dim z_dim
  pri_fc22 : LinearP h_dim z_dim
  inf_fc1 : LinearP (h_dim + h_dim) h_dim
  inf_fc21 : LinearP h_dim z_dim
  inf_fc22 : LinearP h_dim z_dim
  rec_cell : GRUCellP (h_dim * 2) h_dim

/-- The model as assembled in notebook cells 4-5: two global feature
extractors `f_phi_x = Phi_x()` and `f_phi_z = Phi_z()`, and the four
modules `prior`, `decoder = Generator()`, `encoder = Inference()`,
`recurrence = Recurrence()`, each storing a reference to the SAME global
`f_phi_x` / `f_phi_z` objects. -/
def mkDecoder (f_phi_z : Phi_z) (raw : RawLayers) : Generator :=
  { fc1 := raw.gen_fc1, fc2 := raw.gen_fc2, fc3 := raw.gen_fc3
    f_phi_z := f_phi_z }

/-- The `prior = Prior()` instance of cell 5. -/
def mkPrior (raw : RawLayers) : Prior :=
  { fc1 := raw.pri_fc1, fc21 := raw.pri_fc21, fc22 := raw.pri_fc22 }

/-- The `encoder = Inference()` instance of cell 5, storing the shared
global `f_phi_x`. -/
def mkEncoder (f_phi_x : Phi_x) (raw : RawLayers) : Inference :=
  { fc1 := raw.inf_fc1, fc21 := raw.inf_fc21, fc22 := raw.inf_fc22
    f_phi_x := f_phi_x }

/-- The `recurrence = Recurrence()` instance of cell 5, storing both
shared globals. -/
def mkRecurrence (f_phi_x : Phi_x) (f_phi_z : Phi_z) (raw : RawLayers) :
    Recurrence :=
  { rnncell := raw.rec_cell, f_phi_x := f_phi_x, f_phi_z := f_phi_z }

/-- Modelled from the spec: pixyz's reparameterised sampling of a diagonal
`Normal` distribution ("sampled from a prior or approximate posterior
distribution"); the Gaussian draw is passed explicitly as the noise vector
`eps`, so a sample is `loc + scale ⊙ eps`. -/
noncomputable def normalSample {n : ℕ} (p : NormalParams n) (eps : Vec n) :
    Vec n :=
  fun i => p.loc i + p.scale i * eps i

/-- Modelled from the spec: sampling a `Bernoulli` distribution with
parameter `probs`; the uniform draw is passed explicitly as `u`, the
sampled pixel being 1 when `u ≤ probs`. -/
noncomputable def bernoulliSample {n : ℕ} (probs u : Vec n) : Vec n :=
  fun i => if u i ≤ probs i then 1 else 0

/-- The sample dict produced by `encoder_with_recurrence.sample`, holding
the conditioning variables together with the sampled `z` and updated `h`. -/
structure EncRecSample (b : ℕ) where
  x : BVec b x_dim
  h_prev : BVec b h_dim
  z : BVec b z_dim
  h : BVec b h_dim

/-- Modelled from the spec: `encoder_with_recurrence = encoder * recurrence`
("encoder-with-recurrence (posterior sampling plus state update)"); its
`.sample({x, h_prev})` draws `z` from the encoder's posterior (noise `eps`)
and computes `h` by the deterministic recurrence, batched samplewise. -/
noncomputable def encoder_with_recurrence_sample {b : ℕ} (E : Inference)
    (R : Recurrence) (x : BVec b x_dim) (h_prev : BVec b h_dim)
    (eps : BVec b z_dim) : EncRecSample b :=
  let z := fun i => normalSample (E.forward (x i) (h_prev i)) (eps i)
  { x := x, h_prev := h_prev, z := z
    h := fun i => R.forward (x i) (z i) (h_prev i) }

/-- The sample dict produced by `generate_from_prior.sample`. -/
structure GenPriorSample (b : ℕ) where
  h_prev : BVec b h_dim
  z : BVec b z_dim
  x : BVec b x_dim
  h : BVec b h_dim

/-- Modelled from the spec: `generate_from_prior = prior * decoder *
recurrence` ("generate-from-prior (prior sampling, decoding, and state
update)"); its `.sample({h_prev})` draws `z` from the prior (noise `eps`),
draws `x` from the decoder's Bernoulli (uniform draws `u`), and computes
`h` by the deterministic recurrence, batched samplewise. -/
noncomputable def generate_from_prior_sample {b : ℕ} (P : Prior)
    (G : Generator) (R : Recurrence) (h_prev : BVec b h_dim)
    (eps : BVec b z_dim) (u : BVec b x_dim) : GenPriorSample b :=
  let z := fun i => normalSample (P.forward (h_prev i)) (eps i)
  let xs := fun i => bernoulliSample (G.forward (z i) (h_prev i)) (u i)
  { h_prev := h_prev, z := z, x := xs
    h := fun i => R.forward (xs i) (z i) (h_prev i) }

/-- Modelled from the spec: `decoder.sample_mean({z, h_prev})`, the mean of
the decoder's Bernoulli distribution, which is its `probs` parameter. -/
noncomputable def Generator.sample_mean (G : Generator) (z : Vec z_dim)
    (h_prev : Vec h_dim) : Vec x_dim :=
  G.forward z h_prev

/-- Modelled from the spec: the NLL estimator `NLL(decoder)` ("negative
log-likelihood of observed data under the decoder's distribution"): minus
the log-mass of the observed row `x` under Bernoulli(`probs`). -/
noncomputable def bernoulliNLL {n : ℕ} (probs x : Vec n) : ℝ :=
  -(∑ j, (x j * Real.log (probs j) + (1 - x j) * Real.log (1 - probs j)))

/-- Modelled from the spec: `KullbackLeibler(encoder, prior)` ("a
statistical distance between the approximate posterior and prior
distributions"): the closed form for diagonal Gaussians q and p. -/
noncomputable def normalKL {n : ℕ} (q p : NormalParams n) : ℝ :=
  ∑ j, (Real.log (p.scale j / q.scale j)
    + (q.scale j ^ 2 + (q.loc j - p.loc j) ^ 2) / (2 * p.scale j ^ 2)
    - 1 / 2)

/-- Notebook cell 7: `step_loss = (NLL(decoder) + KullbackLeibler(encoder,
prior)).mean()`, evaluated on a batch dict with entries `x`, `h_prev` and
the sampled `z`: the batch mean of the per-sample decoder NLL plus the KL
between the encoder's posterior and the prior. -/
noncomputable def step_loss {b : ℕ} (E : Inference) (P : Prior)
    (G : Generator) (x : BVec b x_dim) (h_prev : BVec b h_dim)
    (z : BVec b z_dim) : ℝ :=
  (∑ i, (bernoulliNLL (G.forward (z i) (h_prev i)) (x i)
    + normalKL (E.forward (x i) (h_prev i)) (P.forward (h_prev i)))) / b

/-- Notebook cell 7: `vrnn_step_fn(t, x, h_prev, ...)` returns
`encoder_with_recurrence.sample({"x": x, "h_prev": h_prev})`. -/
noncomputable def vrnn_step_fn {b : ℕ} (E : Inference) (R : Recurrence)
    (t : ℕ) (x : BVec b x_dim) (h_prev : BVec b h_dim)
    (eps : ℕ → BVec b z_dim) : EncRecSample b :=
  encoder_with_recurrence_sample E R x h_prev (eps t)

/-- Modelled from the spec: pixyz's `ARLoss(step_loss, step_fn, max_iter,
series_var=['x'], update_value={"h": "h_prev"})` ("per-timestep loss ...
auto-regressively summed across the fixed sequence length via a
framework-provided loop construct").  At step `t` it calls the step
function on the series element `xs t` and the current `h_prev`, adds the
step loss evaluated on the resulting sample dict, and feeds the dict's `h`
entry back in as the next `h_prev`.  `ARLossEval t n h_prev` runs steps
`t, t+1, ..., t+n-1`. -/
noncomputable def ARLossEval {b : ℕ} (E : Inference) (P : Prior)
    (G : Generator) (R : Recurrence) (xs : ℕ → BVec b x_dim)
    (eps : ℕ → BVec b z_dim) : ℕ → ℕ → BVec b h_dim → ℝ
  | _, 0, _ => 0
  | t, n + 1, h_prev =>
    let s := vrnn_step_fn E R t (xs t) h_prev eps
    step_loss E P G (xs t) h_prev s.z
      + ARLossEval E P G R xs eps (t + 1) n s.h

/-- Notebook cell 7: the model's training loss, `ARLoss(...)` with
`max_iter = t_max`, evaluated from the supplied initial hidden state. -/
noncomputable def vrnnLoss {b : ℕ} (E : Inference) (P : Prior)
    (G : Generator) (R : Recurrence) (xs : ℕ → BVec b x_dim)
    (eps : ℕ → BVec b z_dim) (h0 : BVec b h_dim) : ℝ :=
  ARLossEval E P G R xs eps 0 t_max h0

/-- The auto-regressively threaded hidden-state sequence: `encH 0` is the
initial state, and `encH (t+1)` is the `h` entry of the sample dict the
step function produced at step `t`. -/
noncomputable def encH {b : ℕ} (E : Inference) (R : Recurrence)
    (xs : ℕ → BVec b x_dim) (eps : ℕ → BVec b z_dim)
    (h0 : BVec b h_dim) : ℕ → BVec b h_dim
  | 0 => h0
  | t + 1 =>
    (vrnn_step_fn E R t (xs t) (encH E R xs eps h0 t) eps).h

/-- Embedding of `torch.zeros(batch_size, recurrence.hidden_size)`: the all-zero batch
of hidden states built at the start of each sequence batch. -/
noncomputable def zeroHidden (R : Recurrence) (b : ℕ) :
    Fin b → Vec R.hidden_size :=
  fun _ _ => 0

/-- Embedding of `data.transpose(0, 1)` on a 3-d tensor embedded as a doubly indexed
family of rows: the result swaps the first two axes. -/
def transpose01 {b s : ℕ} (data : Fin b → Fin s → Vec x_dim) :
    Fin s → Fin b → Vec x_dim :=
  fun t i => data i t

/-- One mini-batch as yielded by the MNIST loader of `init_dataset`: `n`
images, each a `(28, 28)` tensor, i.e. `fixed_t_size` rows of width
`x_dim` (the transform keeps channel 0 of the `ToTensor` image). -/
structure Batch where
  n : ℕ
  data : Fin n → Fin fixed_t_size → Vec x_dim

/-- The input dict assembled by one iteration of `data_loop`'s batch loop:
the transposed series `x` and the fresh all-zero `h_prev`. -/
structure ModelInput where
  n : ℕ
  x : Fin fixed_t_size → Fin n → Vec x_dim
  h_prev : Fin n → Vec h_dim

/-- The dict `data_loop` passes to `model.train` / `model.test` for a
batch `B`: `x = data.transpose(0, 1)` and
`h_prev = torch.zeros(batch_size, recurrence.hidden_size)`. -/
noncomputable def batchInput (R : Recurrence) (B : Batch) : ModelInput :=
  { n := B.n, x := transpose01 B.data, h_prev := zeroHidden R B.n }

/-- The body of `data_loop`'s batch loop, folded over the loader's
batches.  `step` abstracts `model.train` (or `model.test`): given the
current parameters and the input dict it returns the updated parameters
and the scalar loss `.item()`.  The carried state is exactly the pair
(model parameters, accumulated `mean_loss`); each iteration builds the
input dict afresh via `batchInput` and adds `loss * batch_size`. -/
noncomputable def dataLoopFold {Θ : Type} (R : Recurrence)
    (step : Θ → ModelInput → Θ × ℝ) : List Batch → Θ × ℝ → Θ × ℝ
  | [], s => s
  | B :: rest, (θ, m) =>
    let out := step θ (batchInput R B)
    dataLoopFold R step rest (out.1, m + out.2 * B.n)

/-- What `data_loop` does with one loader: fold the batch loop from
`mean_loss = 0`, then divide by `len(loader.dataset)`; it prints the
resulting `mean_loss` and returns the same value.  The result records the
final model parameters, the printed scalar, and the returned scalar. -/
noncomputable def data_loop {Θ : Type} (R : Recurrence)
    (step : Θ → ModelInput → Θ × ℝ) (batches : List Batch)
    (datasetSize : ℕ) (θ0 : Θ) : Θ × ℝ × ℝ :=
  let s := dataLoopFold R step batches (θ0, 0)
  let mean_loss := s.2 / datasetSize
  (s.1, mean_loss, mean_loss)

/-- The list of input dicts `data_loop` passes to `model.train` /
`model.test`, one per iteration of the batch loop, mirroring
`dataLoopFold`'s recursion (the parameters thread through `step` exactly
as there). -/
noncomputable def inputTrace {Θ : Type} (R : Recurrence)
    (step : Θ → ModelInput → Θ × ℝ) : List Batch → Θ → List ModelInput
  | [], _ => []
  | B :: rest, θ =>
    let inp := batchInput R B
    inp :: inputTrace R step rest (step θ inp).1

/-- The list of per-batch scalar losses produced by the `step` calls along
`data_loop`'s fold, in order. -/
noncomputable def lossTrace {Θ : Type} (R : Recurrence)
    (step : Θ → ModelInput → Θ × ℝ) : List Batch → Θ → List ℝ
  | [], _ => []
  | B :: rest, θ =>
    let out := step θ (batchInput R B)
    out.2 :: lossTrace R step rest out.1

/-- One scalar record written by `writer.add_scalar(tag, value, epoch)`. -/
structure ScalarLog where
  tag : String
  value : ℝ
  epoch : ℕ

/-- One iteration of the epoch loop of the final notebook cell: run
`data_loop` in train mode over the train loader, then in test mode over
the test loader, and log the two returned scalars under `train_loss` and
`test_loss` for this epoch.  (`trainStep` abstracts `model.train`,
`testStep` abstracts `model.test`.) -/
noncomputable def epochIter {Θ : Type} (R : Recurrence)
    (trainStep testStep : Θ → ModelInput → Θ × ℝ)
    (trainBatches testBatches : List Batch) (nTrain nTest : ℕ)
    (θ : Θ) (e : ℕ) : Θ × List ScalarLog :=
  let tr := data_loop R trainStep trainBatches nTrain θ
  let te := data_loop R testStep testBatches nTest tr.1
  (te.1, [⟨"train_loss", tr.2.2, e⟩, ⟨"test_loss", te.2.2, e⟩])

/-- The body of `plot_image_from_latent`'s generation loop, run from step
index `t` for `n` more steps: each iteration samples
`generate_from_prior.sample({'h_prev': h_prev})` (with per-step noise
`eps t` and uniform draws `u t`), appends
`x_t = decoder.sample_mean({"z": samples["z"], "h_prev":
samples["h_prev"]})`, and continues from `h_prev = samples["h"]`.  The
result is the appended list `x`, outer axis = time. -/
noncomputable def plotSteps {b : ℕ} (P : Prior) (G : Generator)
    (R : Recurrence) (eps : ℕ → BVec b z_dim) (u : ℕ → BVec b x_dim) :
    ℕ → ℕ → BVec b h_dim → List (BVec b x_dim)
  | _, 0, _ => []
  | t, n + 1, h_prev =>
    let s := generate_from_prior_sample P G R h_prev (eps t) (u t)
    let x_t := fun i => G.sample_mean (s.z i) (s.h_prev i)
    x_t :: plotSteps P G R eps u (t + 1) n s.h

/-- The notebook's `plot_image_from_latent(batch_size)`: start from
`h_prev = torch.zeros(batch_size, recurrence.hidden_size)`, run the
generation loop `for step in range(t_max)`, then
`torch.cat(x, dim=0).transpose(0, 1)`: the outer sample axis leads and
each sample's image is its list of generated rows over time. -/
noncomputable def plot_image_from_latent (P : Prior) (G : Generator)
    (R : Recurrence) {b : ℕ} (eps : ℕ → BVec b z_dim)
    (u : ℕ → BVec b x_dim) : Fin b → List (Vec x_dim) :=
  let rows := plotSteps P G R eps u 0 t_max (zeroHidden R b)
  fun i => rows.map (fun row => row i)

/-- The hidden-state sequence threaded through `plot_image_from_latent`'s
loop: `genH 0` is the all-zero initial state, and `genH (t+1)` is the `h`
entry of the sample dict drawn at step `t`. -/
noncomputable def genH (P : Prior) (G : Generator) (R : Recurrence)
    {b : ℕ} (eps : ℕ → BVec b z_dim) (u : ℕ → BVec b x_dim) :
    ℕ → BVec b h_dim
  | 0 => zeroHidden R b
  | t + 1 =>
    (generate_from_prior_sample P G R (genH P G R eps u t) (eps t) (u t)).h

/-- The decoder-mean row emitted at step `t` of the generation loop, as a
function of the threaded hidden state `genH t`. -/
noncomputable def genRow (P : Prior) (G : Generator) (R : Recurrence)
    {b : ℕ} (eps : ℕ → BVec b z_dim) (u : ℕ → BVec b x_dim) (t : ℕ) :
    BVec b x_dim :=
  let s := generate_from_prior_sample P G R (genH P G R eps u t)
    (eps t) (u t)
  fun i => G.sample_mean (s.z i) (s.h_prev i)

/-! Helper lemmas about the activation functions. -/

/-- The function `softplus` is strictly positive everywhere. -/
theorem softplus_pos (x : ℝ) : 0 < softplus x := by
  have h := Real.exp_pos x
  exact Real.log_pos (by linarith)

/-- The function `sigmoid` is strictly positive everywhere. -/
theorem sigmoid_pos (x : ℝ) : 0 < sigmoid x := by
  have h := Real.exp_pos (-x)
  exact div_pos one_pos (by linarith)

/-- The function `sigmoid` is strictly below 1 everywhere. -/
theorem sigmoid_lt_one (x : ℝ) : sigmoid x < 1 := by
  have h := Real.exp_pos (-x)
  rw [sigmoid, div_lt_one (by linarith)]
  linarith

/-- C8: for every input, `Prior.forward` and `Inference.forward` return a
scale computed as softplus of a linear layer's output, which is strictly
positive, so the Normal distributions they parameterise always have a
positive standard deviation. -/
theorem scale_positive (P : Prior) (E : Inference) (x : Vec x_dim)
    (h_prev : Vec h_dim) (j : Fin z_dim) :
    0 < (P.forward h_prev).scale j ∧ 0 < (E.forward x h_prev).scale j :=
  ⟨softplus_pos _, softplus_pos _⟩

/-- C10: in the model assembled by the notebook, `Inference` and
`Recurrence` hold the very same `Phi_x` object and `Generator` and
`Recurrence` hold the very same `Phi_z` object, so the feature-extraction
functions applied to `x` (resp. `z`) agree pointwise across the modules. -/
theorem shared_feature_extractors (fx : Phi_x) (fz : Phi_z)
    (raw : RawLayers) (x : Vec x_dim) (z : Vec z_dim) :
    (mkEncoder fx raw).f_phi_x = (mkRecurrence fx fz raw).f_phi_x
    ∧ (mkDecoder fz raw).f_phi_z = (mkRecurrence fx fz raw).f_phi_z
    ∧ (mkEncoder fx raw).f_phi_x.forward x
        = (mkRecurrence fx fz raw).f_phi_x.forward x
    ∧ (mkDecoder fz raw).f_phi_z.forward z
        = (mkRecurrence fx fz raw).f_phi_z.forward z :=
  ⟨rfl, rfl, rfl, rfl⟩

/-- The evaluation relation of the `Recurrence` module: `h` is an output
for inputs `(x, z, h_prev)` exactly when it is the single
gated-recurrent-cell update of `h_prev` by the concatenated features of
`z` and `x` — there is no sampling or branching in the definition. -/
def RecurrenceStep (R : Recurrence) (x : Vec x_dim) (z : Vec z_dim)
    (h_prev h : Vec h_dim) : Prop :=
  ∃ inp : Vec (h_dim * 2),
    inp = concatV (R.f_phi_z.forward z) (R.f_phi_x.forward x)
    ∧ h = R.rnncell.forward inp h_prev

/-- C5: the `Recurrence` hidden-state update is deterministic: its forward
function realises the evaluation relation, and any two outputs of the
relation for the same inputs and parameters are equal. -/
theorem recurrence_forward_deterministic (R : Recurrence) (x : Vec x_dim)
    (z : Vec z_dim) (h_prev : Vec h_dim) :
    RecurrenceStep R x z h_prev (R.forward x z h_prev)
    ∧ ∀ h₁ h₂, RecurrenceStep R x z h_prev h₁ →
        RecurrenceStep R x z h_prev h₂ → h₁ = h₂ := by
  constructor
  · exact ⟨_, rfl, rfl⟩
  · rintro h₁ h₂ ⟨inp₁, hi₁, he₁⟩ ⟨inp₂, hi₂, he₂⟩
    rw [he₁, he₂, hi₁, hi₂]

/-- All-zero parameters of a linear layer, used for concrete instances. -/
def zeroLinear (inD outD : ℕ) : LinearP inD outD :=
  ⟨fun _ _ => 0, fun _ => 0⟩

/-- All-zero parameters of a GRU cell, used for concrete instances. -/
def zeroGRU (inD hid : ℕ) : GRUCellP inD hid :=
  ⟨fun _ _ => 0, fun _ _ => 0, fun _ _ => 0, fun _ _ => 0, fun _ _ => 0,
   fun _ _ => 0, fun _ => 0, fun _ => 0, fun _ => 0, fun _ => 0,
   fun _ => 0, fun _ => 0⟩

/-- A concrete all-zero `Phi_x` instance. -/
def phiX0 : Phi_x := ⟨zeroLinear x_dim h_dim⟩

/-- A concrete all-zero `Phi_z` instance. -/
def phiZ0 : Phi_z := ⟨zeroLinear z_dim h_dim⟩

/-- Concrete all-zero raw layer parameters. -/
def raw0 : RawLayers :=
  ⟨zeroLinear _ _, zeroLinear _ _, zeroLinear _ _, zeroLinear _ _,
   zeroLinear _ _, zeroLinear _ _, zeroLinear _ _, zeroLinear _ _,
   zeroLinear _ _, zeroGRU _ _⟩

/-- The concrete `Prior` instance with all-zero parameters. -/
def P0 : Prior := mkPrior raw0

/-- The concrete `Generator` instance with all-zero parameters. -/
def G0 : Generator := mkDecoder phiZ0 raw0

/-- The concrete `Inference` instance with all-zero parameters. -/
def E0 : Inference := mkEncoder phiX0 raw0

/-- The concrete `Recurrence` instance with all-zero parameters. -/
def R0 : Recurrence := mkRecurrence phiX0 phiZ0 raw0

/-- A concrete zero input row. -/
def xRow0 : Vec x_dim := fun _ => 0

/-- A concrete zero latent vector. -/
def zVec0 : Vec z_dim := fun _ => 0

/-- A concrete zero hidden vector. -/
def hVec0 : Vec h_dim := fun _ => 0

/-- Witness for C5: at the all-zero parameters and inputs, the forward
output satisfies the relation and determinism applies to it. -/
theorem recurrence_forward_deterministic_witness :
    RecurrenceStep R0 xRow0 zVec0 hVec0 (R0.forward xRow0 zVec0 hVec0)
    ∧ R0.forward xRow0 zVec0 hVec0 = R0.forward xRow0 zVec0 hVec0 :=
  ⟨(recurrence_forward_deterministic R0 xRow0 zVec0 hVec0).1,
   (recurrence_forward_deterministic R0 xRow0 zVec0 hVec0).2 _ _
     ⟨_, rfl, rfl⟩ ⟨_, rfl, rfl⟩⟩

/-- C2: the recurrence's hidden width is 100, and the initial hidden state
is the all-zero batch both in `data_loop`'s per-batch input dict (train
and test mode alike, since both are built by `batchInput`) and at the
start of `plot_image_from_latent`'s generation loop. -/
theorem hidden_state_zero_init (R : Recurrence) (P : Prior)
    (G : Generator) {b : ℕ} (eps : ℕ → BVec b z_dim)
    (u : ℕ → BVec b x_dim) (B : Batch) :
    R.hidden_size = 100
    ∧ (∀ i j, (batchInput R B).h_prev i j = 0)
    ∧ (∀ i j, genH P G R eps u 0 i j = 0)
    ∧ (∀ i j, zeroHidden R b i j = 0) :=
  ⟨rfl, fun _ _ => rfl, fun _ _ => rfl, fun _ _ => rfl⟩

/-- C4: each per-batch input is the loaded `(n, 28, 28)` tensor with its
first two axes swapped, so the time axis of length 28 leads and timestep
`t` of sample `i` is row `t` of image `i`; and the fixed sequence length
`t_max` equals the row width `x_dim = 28` (the loader's `fixed_t_size` is
also 28). -/
theorem sequence_batch_shape (R : Recurrence) (B : Batch) :
    (batchInput R B).x = transpose01 B.data
    ∧ (∀ t i, transpose01 B.data t i = B.data i t)
    ∧ t_max = x_dim ∧ x_dim = 28 ∧ fixed_t_size = 28 :=
  ⟨rfl, fun _ _ => rfl, rfl, rfl, rfl⟩

/-- The input dicts passed to the model along `data_loop`'s fold depend
only on the batches themselves: the trace is the batchwise image of
`batchInput`, whatever the threaded parameters are. -/
theorem inputTrace_eq {Θ : Type} (R : Recurrence)
    (step : Θ → ModelInput → Θ × ℝ) :
    ∀ (bs : List Batch) (θ : Θ),
      inputTrace R step bs θ = bs.map (batchInput R)
  | [], _ => rfl
  | B :: rest, θ => by
    simp only [inputTrace, List.map_cons]
    rw [inputTrace_eq R step rest]

/-- C7: hidden states never flow across batches: at every iteration of
`data_loop`'s batch loop the input dict is built afresh from the batch
alone — the trace of inputs is independent of the threaded parameters —
and its `h_prev` entry is the all-zero hidden batch, so the only carried
state of the fold is the parameter component and the accumulated scalar. -/
theorem batch_isolation {Θ : Type} (R : Recurrence)
    (step : Θ → ModelInput → Θ × ℝ) (bs : List Batch) (θ θ' : Θ) :
    inputTrace R step bs θ = bs.map (batchInput R)
    ∧ inputTrace R step bs θ = inputTrace R step bs θ'
    ∧ ∀ B, (batchInput R B).h_prev = zeroHidden R B.n :=
  ⟨inputTrace_eq R step bs θ,
   by rw [inputTrace_eq, inputTrace_eq], fun _ => rfl⟩

/-- Accumulation lemma for `data_loop`'s fold: the scalar component of the
fold's final state is the starting accumulator plus the sum of each
batch's loss times its batch size. -/
theorem dataLoopFold_snd {Θ : Type} (R : Recurrence)
    (step : Θ → ModelInput → Θ × ℝ) :
    ∀ (bs : List Batch) (θ : Θ) (m : ℝ),
      (dataLoopFold R step bs (θ, m)).2
        = m + (List.zipWith (fun l (B : Batch) => l * (B.n : ℝ))
            (lossTrace R step bs θ) bs).sum
  | [], θ, m => by simp [dataLoopFold, lossTrace]
  | B :: rest, θ, m => by
    simp only [dataLoopFold, lossTrace, List.zipWith_cons_cons,
      List.sum_cons]
    rw [dataLoopFold_snd R step rest]
    ring

/-- C6: `data_loop` returns the dataset-size-weighted mean of the
per-batch losses — the sum of each batch's loss times its batch size,
divided by the dataset size — this is also the value it prints, and the
epoch loop logs exactly the two values returned by the train-mode and
test-mode runs of `data_loop` as the `train_loss` and `test_loss`
scalars. -/
theorem data_loop_weighted_mean {Θ : Type} (R : Recurrence)
    (trainStep testStep : Θ → ModelInput → Θ × ℝ)
    (bs trainBatches testBatches : List Batch) (N nTrain nTest : ℕ)
    (θ : Θ) (e : ℕ) :
    (data_loop R trainStep bs N θ).2.2
      = (List.zipWith (fun l (B : Batch) => l * (B.n : ℝ))
          (lossTrace R trainStep bs θ) bs).sum / N
    ∧ (data_loop R trainStep bs N θ).2.1 = (data_loop R trainStep bs N θ).2.2
    ∧ (epochIter R trainStep testStep trainBatches testBatches
        nTrain nTest θ e).2
      = [⟨"train_loss", (data_loop R trainStep trainBatches nTrain θ).2.2, e⟩,
         ⟨"test_loss", (data_loop R testStep testBatches nTest
            (data_loop R trainStep trainBatches nTrain θ).1).2.2, e⟩] := by
  refine ⟨?_, rfl, rfl⟩
  show (dataLoopFold R trainStep bs (θ, 0)).2 / (N : ℝ) = _
  rw [dataLoopFold_snd R trainStep bs θ 0, zero_add]

/-- The latent sample drawn by the step function at step `t` along the
auto-regressively threaded hidden states. -/
noncomputable def encZ {b : ℕ} (E : Inference) (R : Recurrence)
    (xs : ℕ → BVec b x_dim) (eps : ℕ → BVec b z_dim) (h0 : BVec b h_dim)
    (t : ℕ) : BVec b z_dim :=
  (vrnn_step_fn E R t (xs t) (encH E R xs eps h0 t) eps).z

/-- The per-timestep loss term at step `t` along the threaded states. -/
noncomputable def stepTerm {b : ℕ} (E : Inference) (P : Prior)
    (G : Generator) (R : Recurrence) (xs : ℕ → BVec b x_dim)
    (eps : ℕ → BVec b z_dim) (h0 : BVec b h_dim) (t : ℕ) : ℝ :=
  step_loss E P G (xs t) (encH E R xs eps h0 t) (encZ E R xs eps h0 t)

/-- Unfolding lemma for the auto-regressive loss: running `n` steps from
step index `t` at the threaded hidden state `encH t` yields the sum of the
per-step loss terms at `t, t+1, ..., t+n-1`. -/
theorem ARLossEval_from_encH {b : ℕ} (E : Inference) (P : Prior)
    (G : Generator) (R : Recurrence) (xs : ℕ → BVec b x_dim)
    (eps : ℕ → BVec b z_dim) (h0 : BVec b h_dim) :
    ∀ (n t : ℕ), ARLossEval E P G R xs eps t n (encH E R xs eps h0 t)
      = ∑ k ∈ Finset.range n, stepTerm E P G R xs eps h0 (t + k)
  | 0, t => by simp [ARLossEval]
  | n + 1, t => by
    have ih := ARLossEval_from_encH E P G R xs eps h0 n (t + 1)
    simp only [ARLossEval]
    have hh : (vrnn_step_fn E R t (xs t) (encH E R xs eps h0 t) eps).h
        = encH E R xs eps h0 (t + 1) := rfl
    rw [hh, ih, Finset.sum_range_succ']
    have hsum : ∑ k ∈ Finset.range n, stepTerm E P G R xs eps h0 (t + 1 + k)
        = ∑ k ∈ Finset.range n, stepTerm E P G R xs eps h0 (t + (k + 1)) :=
      Finset.sum_congr rfl fun k _ =>
        congrArg (stepTerm E P G R xs eps h0) (by omega)
    rw [hsum]
    have hT : stepTerm E P G R xs eps h0 (t + 0)
        = step_loss E P G (xs t) (encH E R xs eps h0 t)
            ((vrnn_step_fn E R t (xs t) (encH E R xs eps h0 t) eps).z) := rfl
    rw [hT]
    ring

/-- C1: the training loss is assembled auto-regressively: it equals the
sum over the 28 timesteps of the per-step loss — the batch mean of the
decoder's negative log-likelihood plus the KL divergence between encoder
and prior, evaluated at the threaded hidden state and the latent the step
function sampled there — and between consecutive steps the `h` produced by
the step function is fed back as the next `h_prev`. -/
theorem loss_autoregressive_sum {b : ℕ} (E : Inference) (P : Prior)
    (G : Generator) (R : Recurrence) (xs : ℕ → BVec b x_dim)
    (eps : ℕ → BVec b z_dim) (h0 : BVec b h_dim) :
    vrnnLoss E P G R xs eps h0
      = ∑ t ∈ Finset.range 28,
          step_loss E P G (xs t) (encH E R xs eps h0 t)
            (encZ E R xs eps h0 t)
    ∧ t_max = 28
    ∧ ∀ t, encH E R xs eps h0 (t + 1)
        = (vrnn_step_fn E R t (xs t) (encH E R xs eps h0 t) eps).h := by
  refine ⟨?_, rfl, fun _ => rfl⟩
  have h := ARLossEval_from_encH E P G R xs eps h0 t_max 0
  have hv : vrnnLoss E P G R xs eps h0
      = ARLossEval E P G R xs eps 0 t_max (encH E R xs eps h0 0) := rfl
  rw [hv, h]
  exact Finset.sum_congr rfl fun t _ => by
    rw [show (0 : ℕ) + t = t from by omega]
    rfl

/-- Unfolding lemma for the generation loop: running `n` steps from step
index `t` at the threaded hidden state `genH t` produces exactly the list
of decoder-mean rows at steps `t, t+1, ..., t+n-1`. -/
theorem plotSteps_from_genH (P : Prior) (G : Generator) (R : Recurrence)
    {b : ℕ} (eps : ℕ → BVec b z_dim) (u : ℕ → BVec b x_dim) :
    ∀ (n t : ℕ), plotSteps P G R eps u t n (genH P G R eps u t)
      = (List.range n).map (fun k => genRow P G R eps u (t + k))
  | 0, _ => by simp [plotSteps]
  | n + 1, t => by
    have ih := plotSteps_from_genH P G R eps u n (t + 1)
    simp only [plotSteps]
    have hh : (generate_from_prior_sample P G R (genH P G R eps u t)
        (eps t) (u t)).h = genH P G R eps u (t + 1) := rfl
    rw [hh, ih, List.range_succ_eq_map, List.map_cons, List.map_map]
    refine congrArg₂ List.cons rfl ?_
    refine List.map_congr_left fun k _ => ?_
    exact congrArg (genRow P G R eps u) (by omega)

/-- Per-sample characterisation of `plot_image_from_latent`: sample `i`'s
image is the list, over the `t_max` step indices, of the decoder-mean rows
at the threaded hidden states. -/
theorem plot_eq_map (P : Prior) (G : Generator) (R : Recurrence)
    {b : ℕ} (eps : ℕ → BVec b z_dim) (u : ℕ → BVec b x_dim) (i : Fin b) :
    plot_image_from_latent P G R eps u i
      = (List.range t_max).map (fun t => genRow P G R eps u t i) := by
  show (plotSteps P G R eps u 0 t_max (zeroHidden R b)).map
      (fun row => row i) = _
  rw [show zeroHidden R b = genH P G R eps u 0 from rfl,
    plotSteps_from_genH P G R eps u t_max 0, List.map_map]
  refine List.map_congr_left fun t _ => ?_
  show genRow P G R eps u (0 + t) i = genRow P G R eps u t i
  rw [show (0 : ℕ) + t = t from by omega]

/-- C3: for every batch size `b`, `plot_image_from_latent` performs
exactly 28 generation steps through the prior-decoder-recurrence
composite — each sample's returned image is the length-28 list of the
decoder's distribution means at the threaded states — and each step's
produced hidden state `h` is fed back as the next step's `h_prev`. -/
theorem plot_image_generation_steps (P : Prior) (G : Generator)
    (R : Recurrence) {b : ℕ} (eps : ℕ → BVec b z_dim)
    (u : ℕ → BVec b x_dim) (i : Fin b) :
    (plot_image_from_latent P G R eps u i).length = 28
    ∧ plot_image_from_latent P G R eps u i
        = (List.range t_max).map (fun t => genRow P G R eps u t i)
    ∧ ∀ t, genH P G R eps u (t + 1)
        = (generate_from_prior_sample P G R (genH P G R eps u t)
            (eps t) (u t)).h :=
  ⟨by rw [plot_eq_map]; simp [t_max, x_dim],
   plot_eq_map P G R eps u i, fun _ => rfl⟩

/-- C9: `Generator.forward` returns probs computed by a sigmoid, so every
component lies strictly between 0 and 1; consequently every pixel of an
image generated via `decoder.sample_mean` in `plot_image_from_latent`
lies strictly in the open interval (0, 1). -/
theorem generator_probs_unit_interval (P : Prior) (G : Generator)
    (R : Recurrence) {b : ℕ} (eps : ℕ → BVec b z_dim)
    (u : ℕ → BVec b x_dim) (z : Vec z_dim) (h_prev : Vec h_dim)
    (j : Fin x_dim) (i : Fin b) :
    (0 < G.forward z h_prev j ∧ G.forward z h_prev j < 1)
    ∧ ∀ row ∈ plot_image_from_latent P G R eps u i, ∀ j' : Fin x_dim,
        0 < row j' ∧ row j' < 1 := by
  refine ⟨⟨sigmoid_pos _, sigmoid_lt_one _⟩, ?_⟩
  intro row hrow j'
  rw [plot_eq_map] at hrow
  obtain ⟨t, -, rfl⟩ := List.mem_map.mp hrow
  exact ⟨sigmoid_pos _, sigmoid_lt_one _⟩

/-- A concrete all-zero per-step latent noise oracle for a batch of 1. -/
def eps0 : ℕ → BVec 1 z_dim := fun _ _ _ => 0

/-- A concrete all-zero per-step uniform-draw oracle for a batch of 1. -/
def u0 : ℕ → BVec 1 x_dim := fun _ _ _ => 0

/-- The single sample index of a batch of 1. -/
def i0 : Fin 1 := ⟨0, by norm_num⟩

/-- A concrete pixel index. -/
def j0 : Fin x_dim := ⟨0, by norm_num [x_dim]⟩

/-- Witness for C9: the first generated row of the all-zero model is a
member of the generated image, and its first pixel lies in (0, 1). -/
theorem generator_probs_unit_interval_witness :
    0 < genRow P0 G0 R0 eps0 u0 0 i0 j0
    ∧ genRow P0 G0 R0 eps0 u0 0 i0 j0 < 1 :=
  (generator_probs_unit_interval P0 G0 R0 eps0 u0 zVec0 hVec0 j0 i0).2
    (genRow P0 G0 R0 eps0 u0 0 i0)
    (by
      rw [plot_eq_map]
      exact List.mem_map.mpr
        ⟨0, List.mem_range.mpr (by norm_num [t_max, x_dim]), rfl⟩)
    j0

end VRNN
